import Mathlib

/-!
H200 GPU weighted-index pipeline: a shallow embedding.

This file embeds the core data and algorithms of the H200 price-index
repository (provider scrapers, weighted index calculator, Supabase
publisher) as executable Lean definitions, and proves properties of them.

Conventions used throughout:
* Python floats are modelled as exact rationals (`ℚ`); decimal literals
  such as `0.41` denote the exact decimal rational.
* Python dicts of provider → price are modelled as association lists
  `List (String × ℚ)`, in insertion order.
* Price strings such as `"$7.91/hr"` are produced by the scrapers and
  immediately re-parsed by regex downstream; this round-trip is modelled
  as the numeric value itself.
-/

namespace H200

/-! ## Static weight tables (`calculate_h200_index.py`, `H200IndexCalculator.__init__`)

`hyperscaler_weights` and `neocloud_weights` are the intra-cohort weight
dictionaries, transcribed entry for entry (lines 69–113 of
`calculate_h200_index.py`). -/

def hyperscaler_weights : List (String × ℚ) :=
  [("AWS", 0.41),
   ("Azure", 0.33),
   ("Google Cloud", 0.17),
   ("Oracle", 0.08),
   ("CoreWeave", 0.01)]

def neocloud_weights : List (String × ℚ) :=
  [("Lambda Labs", 0.12),
   ("Nebius", 0.10),
   ("Crusoe", 0.08),
   ("Vultr", 0.07),
   ("RunPod", 0.06),
   ("Vast.ai", 0.05),
   ("FluidStack", 0.05),
   ("Hyperstack", 0.04),
   ("Civo", 0.04),
   ("Shadeform", 0.04),
   ("Spheron", 0.03),
   ("Akash", 0.03),
   ("Prime Intellect", 0.03),
   ("Valdi", 0.03),
   ("Verda", 0.025),
   ("Fal.ai", 0.025),
   ("GMI Cloud", 0.02),
   ("JarvisLabs", 0.02),
   ("Hyperbolic", 0.02),
   ("IonStream", 0.015),
   ("AIME", 0.015),
   ("AceCloud", 0.01),
   ("LeaderGPU", 0.01),
   ("ComputeThisHub", 0.01),
   ("Siam.ai", 0.01),
   ("Sesterce", 0.01),
   ("Ori", 0.01),
   ("default", 0.005)]

/-- Sum of the configured intra-cohort weights of a weight table. -/
def weightSum (w : List (String × ℚ)) : ℚ :=
  (w.map Prod.snd).sum

/-- Cohort total weights (`hyperscaler_total_weight`, `neocloud_total_weight`). -/
def hyperscaler_total_weight : ℚ := 0.65

def neocloud_total_weight : ℚ := 0.35

/-! ## Weighted index engine (`H200IndexCalculator.calculate_weighted_index`)

The hyperscaler loop (lines 289–318): for each provider present in
`hyperscaler_data` that is also a key of `hyperscaler_weights`, accumulate
`effective_price * (individual_weight * hyperscaler_total_weight)` into the
weighted sum and `individual_weight * hyperscaler_total_weight` into the
total weight used.  Providers absent from the weight table are skipped.
`hyperscaler_data` maps each provider to its post-discount
`effective_price`; we model it as an association list of those prices. -/

def hyperAccum : List (String × ℚ) → ℚ × ℚ
  | [] => (0, 0)
  | (provider, effective_price) :: rest =>
    let (s, u) := hyperAccum rest
    match hyperscaler_weights.lookup provider with
    | some individual_weight =>
      let absolute_weight := individual_weight * hyperscaler_total_weight
      (s + effective_price * absolute_weight, u + absolute_weight)
    | none => (s, u)

/-- The hyperscaler component: the weighted sum, renormalized by
`hyperscaler_total_weight / total_hyperscaler_weight_used` when
`0 < total_used < hyperscaler_total_weight` (lines 315–317). -/
def hyperscalerComponent (data : List (String × ℚ)) : ℚ :=
  let s := (hyperAccum data).1
  let u := (hyperAccum data).2
  if 0 < u ∧ u < hyperscaler_total_weight then
    s * (hyperscaler_total_weight / u)
  else s

/-- Neocloud individual weight: table lookup, falling back to the
`"default"` entry (itself looked up with ultimate fallback 0.005), per
lines 335–336. -/
def neocloudWeightOf (provider : String) : ℚ :=
  (neocloud_weights.lookup provider).getD
    ((neocloud_weights.lookup "default").getD 0.005)

/-- Neocloud loop (lines 329–341): every provider contributes, using the
default weight when unlisted. -/
def neoAccum : List (String × ℚ) → ℚ × ℚ
  | [] => (0, 0)
  | (provider, price) :: rest =>
    let (s, u) := neoAccum rest
    let absolute_weight := neocloudWeightOf provider * neocloud_total_weight
    (s + price * absolute_weight, u + absolute_weight)

/-- The neocloud component with the same renormalization rule (lines 354–356). -/
def neocloudComponent (data : List (String × ℚ)) : ℚ :=
  let s := (neoAccum data).1
  let u := (neoAccum data).2
  if 0 < u ∧ u < neocloud_total_weight then
    s * (neocloud_total_weight / u)
  else s

/-! ## String helpers

Python's `str.lower`, `str.strip` and the substring operator `in` are
modelled on character lists (Lean's built-in `String.toLower`/`trim` do
not reduce in the kernel, so we spell out the same operations). -/

def lowerChars (l : List Char) : List Char := l.map Char.toLower

def trimChars (l : List Char) : List Char :=
  ((l.dropWhile Char.isWhitespace).reverse.dropWhile Char.isWhitespace).reverse

/-- `provider.lower().strip()` from `categorize_providers` (line 210). -/
def pyNorm (s : String) : List Char := trimChars (lowerChars s.data)

def startsWithChars : List Char → List Char → Bool
  | [], _ => true
  | _ :: _, [] => false
  | a :: as, b :: bs => a == b && startsWithChars as bs

/-- Python's substring test `needle in hay`. -/
def containsChars (needle : List Char) : List Char → Bool
  | [] => startsWithChars needle []
  | c :: rest => startsWithChars needle (c :: rest) || containsChars needle rest

/-! ## Provider classifier (`H200IndexCalculator.categorize_providers`, lines 195–227)

The alias table (lines 201–207), in source order.  For each provider the
code lowercases and strips the id, then walks the hyperscalers in table
order and their aliases in list order, breaking on the first alias that is
a substring of the normalized id; no match puts the provider in the
neocloud cohort. -/

def hyperscaler_aliases : List (String × List String) :=
  [("AWS", ["aws", "amazon"]),
   ("Azure", ["azure", "microsoft"]),
   ("Google Cloud", ["google", "gcp", "google_cloud", "google cloud"]),
   ("Oracle", ["oracle", "oci"]),
   ("CoreWeave", ["coreweave", "core_weave", "core weave"])]

/-- The inner alias loop (lines 215–218): does any alias of hyperscaler
`hs` occur as a substring of the lowercased, stripped provider id? -/
def aliasHit (provider : String) (hs : String × List String) : Bool :=
  hs.2.any fun al => containsChars al.data (pyNorm provider)

/-- The outer loop with its double `break` (lines 214–220): the first
table entry with an alias hit wins. -/
def matchInTable (table : List (String × List String)) (provider : String) :
    Option String :=
  table.findSome? fun hs => if aliasHit provider hs then some hs.1 else none

/-- The `matched_hyperscaler` computed for one provider id. -/
def matchHyperscaler (provider : String) : Option String :=
  matchInTable hyperscaler_aliases provider

inductive Cohort where
  | hyperscaler (name : String)
  | neocloud
  deriving DecidableEq, Repr

/-- The cohort assigned to one provider id (lines 222–225). -/
def classifyProvider (provider : String) : Cohort :=
  match matchHyperscaler provider with
  | some h => .hyperscaler h
  | none => .neocloud

/-! ## Discount model (`H200IndexCalculator.apply_hyperscaler_discounts`, lines 229–272)

`random.uniform(discount_min, discount_max)` is modelled as an oracle
`rates : String → ℚ` supplying each provider's sampled rate; theorems
constrain it to the configured range. -/

def discount_min : ℚ := 0.70

def discount_max : ℚ := 0.90

def discounted_weight : ℚ := 0.80

def full_price_weight : ℚ := 0.20

structure DiscountData where
  original_price : ℚ
  discount_rate : ℚ
  discounted_price : ℚ
  effective_price : ℚ
  deriving DecidableEq, Repr

/-- The per-provider body of the discount loop (lines 245–262). -/
def applyDiscount (original_price discount_rate : ℚ) : DiscountData :=
  let discounted_price := original_price * (1 - discount_rate)
  let effective_price :=
    discounted_price * discounted_weight + original_price * full_price_weight
  { original_price := original_price
    discount_rate := discount_rate
    discounted_price := discounted_price
    effective_price := effective_price }

def apply_hyperscaler_discounts (rates : String → ℚ)
    (prices : List (String × ℚ)) : List (String × DiscountData) :=
  prices.map fun kv => (kv.1, applyDiscount kv.2 (rates kv.1))

/-! ## Plausibility filters

Per-entry numeric acceptance tests used by the scrapers' validation and
extraction code.  Each price string's numeric value is the ℚ argument. -/

/-- `AWSH200Scraper._validate_prices`, line 86: `3 < price < 20`. -/
def awsPlausible (p : ℚ) : Bool := decide (3 < p) && decide (p < 20)

/-- `AIMEH200Scraper._validate_prices`, line 127: `1.0 < price < 20.0`. -/
def aimePlausible (p : ℚ) : Bool := decide (1 < p) && decide (p < 20)

/-- `OracleH200Scraper._validate_prices`, line 86: `8 < price < 12`. -/
def oraclePlausible (p : ℚ) : Bool := decide (8 < p) && decide (p < 12)

/-- `OracleH200Scraper._extract_from_tables`, line 208:
`8.0 <= price <= 12.0` (inclusive, unlike every other range test). -/
def oracleTableAccept (p : ℚ) : Bool := decide ((8:ℚ) ≤ p) && decide (p ≤ 12)

/-- `OracleH200Scraper._extract_from_text`, line 239: `8.0 < price < 12.0`. -/
def oracleTextAccept (p : ℚ) : Bool := decide ((8:ℚ) < p) && decide (p < 12)

/-- The `'Error' in variant` guard appearing in `_validate_prices` and
`_normalize_prices`. -/
def variantHasError (variant : String) : Bool :=
  containsChars "Error".data variant.data

/-- AIME skips bookkeeping keys starting with `"_"`
(`'Error' in variant or variant.startswith('_')`, line 119). -/
def underscoreKey (k : String) : Bool := startsWithChars "_".data k.data

/-- `AWSH200Scraper._validate_prices` (lines 73–90) over a price map:
true iff some non-`Error` entry's numeric value passes the band. -/
def aws_validate_prices (ps : List (String × ℚ)) : Bool :=
  ps.any fun kv => !variantHasError kv.1 && awsPlausible kv.2

/-- `AIMEH200Scraper._validate_prices` (lines 113–131). -/
def aime_validate_prices (ps : List (String × ℚ)) : Bool :=
  ps.any fun kv => !(variantHasError kv.1 || underscoreKey kv.1) && aimePlausible kv.2

/-- `OracleH200Scraper._validate_prices` (lines 73–90). -/
def oracle_validate_prices (ps : List (String × ℚ)) : Bool :=
  ps.any fun kv => !variantHasError kv.1 && oraclePlausible kv.2

/-! ## Extraction pipeline (`get_h200_prices` method loop)

Every scraper runs an ordered list of extraction strategies; a strategy
either raises (caught, `continue`) or returns a price map.  The loop stops
at the first strategy whose non-empty result passes `_validate_prices`
(`if prices and self._validate_prices(prices): ... break`, AWS lines
49–61).  `runMethods` returns the winning price map (if any) together
with how many strategies were actually invoked. -/

inductive MethodOutcome where
  | err
  | ok (prices : List (String × ℚ))
  deriving DecidableEq, Repr

def methodSucceeds (validate : List (String × ℚ) → Bool) : MethodOutcome → Bool
  | .err => false
  | .ok ps => !ps.isEmpty && validate ps

def runMethods (validate : List (String × ℚ) → Bool) :
    List MethodOutcome → Option (List (String × ℚ)) × Nat
  | [] => (none, 0)
  | m :: rest =>
    if methodSucceeds validate m then
      match m with
      | .ok ps => (some ps, 1)
      | .err => (none, 1)
    else
      let r := runMethods validate rest
      (r.1, r.2 + 1)

/-- `AWSH200Scraper._get_known_pricing` (lines 374–393): the static
fallback table used when every strategy fails. -/
def aws_known_pricing : List (String × ℚ) :=
  [("P5en.48xlarge (US East N. Virginia)", 7.91),
   ("P5en.48xlarge (US East Ohio)", 7.91),
   ("P5en.48xlarge (US West Oregon)", 7.91)]

/-- `AWSH200Scraper._normalize_prices` (lines 395–433): average the
non-`Error` per-GPU prices and emit one representative entry. -/
def aws_normalize_prices (ps : List (String × ℚ)) : List (String × ℚ) :=
  let per_gpu := (ps.filter fun kv => !variantHasError kv.1).map Prod.snd
  if per_gpu.isEmpty then []
  else [("P5en.48xlarge (AWS)", per_gpu.sum / per_gpu.length)]

/-- `AWSH200Scraper.get_h200_prices` (lines 34–71): run the strategies,
fall back to the static known-pricing table when none validates, then
normalize. -/
def aws_get_h200_prices (methods : List MethodOutcome) : List (String × ℚ) :=
  match (runMethods aws_validate_prices methods).1 with
  | some ps => aws_normalize_prices ps
  | none => aws_normalize_prices aws_known_pricing

/-! ## AIME scraper (`aime_h200_scraper.py`)

`get_eur_to_usd_rate` (lines 40–64) walks an ordered list of exchange-rate
APIs and returns the first usable `rates.USD` value.  Each source's
outcome is modelled as `Option ℚ`: `none` collapses the failure modes
(request exception, non-200 status, missing `rates` field, missing or
falsy `USD` entry), `some r` is a usable rate.  The pair's second
component counts how many sources were consulted. -/

def get_eur_to_usd_rate : List (Option ℚ) → Option ℚ × Nat
  | [] => (none, 0)
  | source :: rest =>
    match source with
    | some rate => (some rate, 1)
    | none =>
      let r := get_eur_to_usd_rate rest
      (r.1, r.2 + 1)

/-- The EUR→USD conversion loop in `AIMEH200Scraper.get_h200_prices`
(lines 90–98): each non-underscore entry is multiplied by the exchange
rate.  (The `"_eur_price"`/`"_exchange_rate"` bookkeeping entries the loop
also records — stripped again by `save_to_json` — are not modelled.) -/
def aime_convert (rate : ℚ) (ps : List (String × ℚ)) : List (String × ℚ) :=
  (ps.filter fun kv => !underscoreKey kv.1).map fun kv => (kv.1, kv.2 * rate)

/-- `AIMEH200Scraper.get_h200_prices` (lines 66–111): without an exchange
rate the scraper returns `{}` (lines 73–75); with one it runs the strategy
loop and converts the first validated result; if no strategy validates it
again returns `{}` (lines 106–108) — there is no static fallback table. -/
def aime_get_h200_prices (rateSources : List (Option ℚ))
    (methods : List MethodOutcome) : List (String × ℚ) :=
  match (get_eur_to_usd_rate rateSources).1 with
  | none => []
  | some rate =>
    match (runMethods aime_validate_prices methods).1 with
    | some ps => aime_convert rate ps
    | none => []

/-! ## Publisher (`push_to_supabase.py`)

The datastore is modelled as the list of persisted `index_price` values,
newest first (the code reads `order by created_at desc limit 2`; insertion
prepends).  The history query in `validate_price` (lines 67–73) may itself
raise, modelled by `Except Unit (List ℚ)`. -/

def default_tolerance : ℚ := 0.25

/-- `validate_price` (lines 50–110): on a query exception return `True`
(lines 107–110); with fewer than 2 rows return `True` (lines 75–78);
otherwise accept iff `avg*(1-tol) <= new_price <= avg*(1+tol)` (lines
80–89, inclusive bounds). -/
def validate_price (fetch : Except Unit (List ℚ)) (new_price tolerance : ℚ) : Bool :=
  match fetch with
  | .error _ => true
  | .ok data =>
    if data.length < 2 then true
    else
      let avg_price := data.sum / data.length
      let lower_bound := avg_price * (1 - tolerance)
      let upper_bound := avg_price * (1 + tolerance)
      decide (lower_bound ≤ new_price) && decide (new_price ≤ upper_bound)

/-- `push_to_supabase` (lines 113–186): validate, and only on success
insert the new record; on rejection return `False` with the store
untouched.  Returns (success flag, resulting store). -/
def push_to_supabase (fetch : Except Unit (List ℚ)) (store : List ℚ)
    (new_price : ℚ) : Bool × List ℚ :=
  if validate_price fetch new_price default_tolerance then
    (true, new_price :: store)
  else
    (false, store)

/-- The normal path: the history fetch succeeds and returns the last two
persisted prices (`limit 2`, newest first). -/
def pushIndexPrice (store : List ℚ) (new_price : ℚ) : Bool × List ℚ :=
  push_to_supabase (.ok (store.take 2)) store new_price

/-! ## Helper lemmas -/

lemma matchInTable_cons (hs : String × List String) (t : List (String × List String))
    (id : String) :
    matchInTable (hs :: t) id =
      if aliasHit id hs then some hs.1 else matchInTable t id := by
  simp only [matchInTable, List.findSome?_cons]
  by_cases h : aliasHit id hs <;> simp [h]

lemma matchInTable_eq_none_iff (t : List (String × List String)) (id : String) :
    matchInTable t id = none ↔ ∀ hs ∈ t, aliasHit id hs = false := by
  induction t with
  | nil => simp [matchInTable]
  | cons hs t ih =>
    rw [matchInTable_cons]
    by_cases h : aliasHit id hs <;> simp [h, ih]

lemma matchInTable_first (pre post : List (String × List String))
    (hs : String × List String) (id : String)
    (hpre : ∀ hs' ∈ pre, aliasHit id hs' = false)
    (hhit : aliasHit id hs = true) :
    matchInTable (pre ++ hs :: post) id = some hs.1 := by
  induction pre with
  | nil => simp [matchInTable_cons, hhit]
  | cons p pre ih =>
    rw [List.cons_append, matchInTable_cons, if_neg]
    · exact ih fun hs' h => hpre hs' (List.mem_cons_of_mem p h)
    · simp [hpre p (List.mem_cons_self p pre)]

/-! ## Claims -/

/-- C3 (counterexample): the neocloud intra-cohort weight table does
*not* sum to 1.0, refuting the claim that both cohorts' configured
weights sum to exactly 1.0. -/
theorem neocloud_weights_sum_cex : weightSum neocloud_weights ≠ 1 := by
  simp only [weightSum, neocloud_weights, List.map, List.sum_cons, List.sum_nil]
  norm_num

/-- C3 (amended): the hyperscaler weight table sums to exactly 1.0, but
the neocloud weight table (its `"default"` catch-all included) sums to
0.975. -/
theorem cohort_weight_sums :
    weightSum hyperscaler_weights = 1 ∧ weightSum neocloud_weights = 0.975 := by
  constructor <;>
    · simp only [weightSum, hyperscaler_weights, neocloud_weights, List.map,
        List.sum_cons, List.sum_nil]
      norm_num

/-- C4 (counterexample): Oracle's table-extraction acceptance test
(`_extract_from_tables`, line 208) uses inclusive bounds, so a candidate
exactly at the lower band edge $8.00 is accepted — refuting the claim
that every acceptance test rejects band-edge candidates with strict
inequalities. -/
theorem oracle_table_edge_accept_cex : oracleTableAccept 8 = true := by
  norm_num [oracleTableAccept]

/-- C4 (amended): the `_validate_prices` plausibility filters of the
AWS, AIME and Oracle scrapers, and Oracle's text-extraction test, use
strict bounds and reject candidates exactly at the band edges; Oracle's
table-extraction acceptance test alone is inclusive and accepts both
edges, though an edge-valued candidate map is still rejected by the
strict `_validate_prices` gate. -/
theorem plausibility_band_edges :
    awsPlausible 3 = false ∧ awsPlausible 20 = false ∧
    aimePlausible 1 = false ∧ aimePlausible 20 = false ∧
    oraclePlausible 8 = false ∧ oraclePlausible 12 = false ∧
    oracleTextAccept 8 = false ∧ oracleTextAccept 12 = false ∧
    oracleTableAccept 8 = true ∧ oracleTableAccept 12 = true ∧
    oracle_validate_prices [("BM.GPU.H200.8 (Oracle)", 8)] = false := by
  refine ⟨?_, ?_, ?_, ?_, ?_, ?_, ?_, ?_, ?_, ?_, ?_⟩ <;>
    norm_num [awsPlausible, aimePlausible, oraclePlausible, oracleTextAccept,
      oracleTableAccept, oracle_validate_prices, List.any]

/-- C6: for every provider entry the discount loop records
`discounted_price = p * (1 - r)` and
`effective_price = 0.80 * discounted_price + 0.20 * p`; in particular a
$10 list price with sampled discount 0.80 yields a $2.00 discounted
price and a $3.60 blended effective price. -/
theorem discount_blend :
    (∀ (rates : String → ℚ) (prices : List (String × ℚ)) (kv : String × ℚ),
        kv ∈ prices →
        (kv.1, applyDiscount kv.2 (rates kv.1)) ∈ apply_hyperscaler_discounts rates prices) ∧
    (∀ p r : ℚ, 0 < p → discount_min ≤ r → r ≤ discount_max →
        (applyDiscount p r).discounted_price = p * (1 - r) ∧
        (applyDiscount p r).effective_price = 0.80 * (p * (1 - r)) + 0.20 * p) ∧
    (applyDiscount 10 0.8).discounted_price = 2 ∧
    (applyDiscount 10 0.8).effective_price = 3.6 := by
  refine ⟨?_, ?_, ?_, ?_⟩
  · intro rates prices kv hmem
    exact List.mem_map_of_mem (fun kv => (kv.1, applyDiscount kv.2 (rates kv.1))) hmem
  · intro p r _ _ _
    constructor
    · rfl
    · simp only [applyDiscount, discounted_weight, full_price_weight]
      ring
  · norm_num [applyDiscount, discounted_weight, full_price_weight]
  · norm_num [applyDiscount, discounted_weight, full_price_weight]

/-- C6 (witness): the theorem applied at list price $10 and sampled
discount rate 0.80. -/
theorem discount_blend_witness :
    (0:ℚ) < 10 ∧ discount_min ≤ 0.8 ∧ (0.8:ℚ) ≤ discount_max ∧
    (applyDiscount 10 0.8).discounted_price = 10 * (1 - 0.8) ∧
    (applyDiscount 10 0.8).effective_price = 0.80 * (10 * (1 - 0.8)) + 0.20 * 10 := by
  have h := discount_blend.2.1 10 0.8 (by norm_num) (by norm_num [discount_min])
    (by norm_num [discount_max])
  exact ⟨by norm_num, by norm_num [discount_min], by norm_num [discount_max], h.1, h.2⟩

/-- C10: when the history lookup raises, `validate_price` returns `True`
for every candidate price, and the push proceeds — the publish-validation
guard fails open on errors. -/
theorem validation_fails_open (store : List ℚ) (new_price tolerance : ℚ) :
    validate_price (.error ()) new_price tolerance = true ∧
    push_to_supabase (.error ()) store new_price = (true, new_price :: store) := by
  exact ⟨rfl, by simp [push_to_supabase, validate_price]⟩

lemma hyperAccum_aws_azure :
    hyperAccum [("AWS", 8), ("Azure", 12)] = (2353/500, 481/1000) := by
  simp [hyperAccum, hyperscaler_weights, hyperscaler_total_weight, List.lookup]
  norm_num

/-- C1 (counterexample): in the two-provider scenario (AWS at $8, Azure
at $12, every other hyperscaler missing) the computed hyperscaler
component does *not* equal the claimed formula
`((0.41*8 + 0.33*12) * 0.65) / (0.65*(0.41+0.33))` — that expression is
the weighted average of the present providers without the cohort weight,
while the code retains the 0.65 cohort factor. -/
theorem hyperscaler_renorm_formula_cex :
    hyperscalerComponent [("AWS", 8), ("Azure", 12)] ≠
      ((0.41*8 + 0.33*12) * 0.65) / (0.65 * (0.41 + 0.33)) := by
  rw [hyperscalerComponent, hyperAccum_aws_azure]
  norm_num [hyperscaler_total_weight]

/-- C1 (amended): whenever a cohort's absolute weights used sum to
strictly more than zero and strictly less than the cohort total weight,
the engine scales the cohort's weighted sum by
`cohort_total_weight / (sum of absolute weights used)` (both cohorts);
in the AWS-$8/Azure-$12 scenario the hyperscaler component therefore
equals `((0.41*8 + 0.33*12) * 0.65) / (0.41 + 0.33)` — the claimed
formula multiplied by the cohort weight 0.65. -/
theorem hyperscaler_renormalization :
    (∀ data : List (String × ℚ),
        0 < (hyperAccum data).2 → (hyperAccum data).2 < hyperscaler_total_weight →
        hyperscalerComponent data =
          (hyperAccum data).1 * (hyperscaler_total_weight / (hyperAccum data).2)) ∧
    (∀ data : List (String × ℚ),
        0 < (neoAccum data).2 → (neoAccum data).2 < neocloud_total_weight →
        neocloudComponent data =
          (neoAccum data).1 * (neocloud_total_weight / (neoAccum data).2)) ∧
    hyperscalerComponent [("AWS", 8), ("Azure", 12)] =
      ((0.41*8 + 0.33*12) * 0.65) / (0.41 + 0.33) := by
  refine ⟨?_, ?_, ?_⟩
  · intro data h1 h2
    simp only [hyperscalerComponent, if_pos (⟨h1, h2⟩ : _ ∧ _)]
  · intro data h1 h2
    simp only [neocloudComponent, if_pos (⟨h1, h2⟩ : _ ∧ _)]
  · rw [hyperscalerComponent, hyperAccum_aws_azure]
    norm_num [hyperscaler_total_weight]

/-- C1 (witness): the renormalization branch taken at the concrete
AWS-$8/Azure-$12 scenario. -/
theorem hyperscaler_renormalization_witness :
    0 < (hyperAccum [("AWS", 8), ("Azure", 12)]).2 ∧
    (hyperAccum [("AWS", 8), ("Azure", 12)]).2 < hyperscaler_total_weight ∧
    hyperscalerComponent [("AWS", 8), ("Azure", 12)] =
      (hyperAccum [("AWS", 8), ("Azure", 12)]).1 *
        (hyperscaler_total_weight / (hyperAccum [("AWS", 8), ("Azure", 12)]).2) := by
  have h1 : 0 < (hyperAccum [("AWS", 8), ("Azure", 12)]).2 := by
    rw [hyperAccum_aws_azure]; norm_num
  have h2 : (hyperAccum [("AWS", 8), ("Azure", 12)]).2 < hyperscaler_total_weight := by
    rw [hyperAccum_aws_azure]; norm_num [hyperscaler_total_weight]
  exact ⟨h1, h2, hyperscaler_renormalization.1 _ h1 h2⟩

/-- C5: with at least two persisted prices the publisher inserts the new
index price iff its deviation from the mean of the last two prices is at
most the 25% tolerance, and rejects (leaving the store unchanged) iff the
deviation exceeds it; with fewer than two records it inserts without
validation; with prior prices $10 and $11, $9.00 is accepted and $15.00
is rejected. -/
theorem publish_validation :
    (∀ (store : List ℚ) (new_price : ℚ), 2 ≤ store.length →
      ((pushIndexPrice store new_price = (false, store) ↔
          |new_price - (store.take 2).sum / 2| >
            default_tolerance * ((store.take 2).sum / 2)) ∧
       (pushIndexPrice store new_price = (true, new_price :: store) ↔
          |new_price - (store.take 2).sum / 2| ≤
            default_tolerance * ((store.take 2).sum / 2)))) ∧
    (∀ (store : List ℚ) (new_price : ℚ), store.length < 2 →
      pushIndexPrice store new_price = (true, new_price :: store)) ∧
    pushIndexPrice [10, 11] 9 = (true, [9, 10, 11]) ∧
    pushIndexPrice [10, 11] 15 = (false, [10, 11]) := by
  refine ⟨?_, ?_, ?_, ?_⟩
  · intro store new_price h
    have hlen : (store.take 2).length = 2 := by
      simp [List.length_take]; omega
    set avg := (store.take 2).sum / 2 with havg
    have hval : validate_price (.ok (store.take 2)) new_price default_tolerance =
        (decide (avg * (1 - default_tolerance) ≤ new_price) &&
         decide (new_price ≤ avg * (1 + default_tolerance))) := by
      rw [validate_price]
      simp only [hlen]
      norm_num [havg]
    have ht : default_tolerance = 1/4 := by norm_num [default_tolerance]
    have hiff : (avg * (1 - default_tolerance) ≤ new_price ∧
        new_price ≤ avg * (1 + default_tolerance)) ↔
        |new_price - avg| ≤ default_tolerance * avg := by
      rw [abs_sub_le_iff, ht]
      constructor <;> rintro ⟨h1, h2⟩ <;> constructor <;> linarith
    constructor
    · rw [pushIndexPrice, push_to_supabase, hval]
      by_cases hc : avg * (1 - default_tolerance) ≤ new_price ∧
          new_price ≤ avg * (1 + default_tolerance)
      · simp [hc.1, hc.2, hiff.mp hc]
      · have hnot : ¬ |new_price - avg| ≤ default_tolerance * avg :=
          fun hh => hc (hiff.mpr hh)
        rcases not_and_or.mp hc with h1 | h1 <;>
          simp [h1, hnot, not_le.mp hnot]
    · rw [pushIndexPrice, push_to_supabase, hval]
      by_cases hc : avg * (1 - default_tolerance) ≤ new_price ∧
          new_price ≤ avg * (1 + default_tolerance)
      · simp [hc.1, hc.2, hiff.mp hc]
      · have hnot : ¬ |new_price - avg| ≤ default_tolerance * avg :=
          fun hh => hc (hiff.mpr hh)
        rcases not_and_or.mp hc with h1 | h1 <;> simp [h1, hnot]
  · intro store new_price h
    have hl : (store.take 2).length < 2 := by simp [List.length_take]; omega
    have hv : validate_price (.ok (store.take 2)) new_price default_tolerance = true := by
      simp only [validate_price]
      rw [if_pos hl]
    simp [pushIndexPrice, push_to_supabase, hv]
  · norm_num [pushIndexPrice, push_to_supabase, validate_price, default_tolerance]
  · norm_num [pushIndexPrice, push_to_supabase, validate_price, default_tolerance]

/-- C5 (witness): the rejection iff applied to the concrete history
$10, $11 with candidate $15.00. -/
theorem publish_validation_witness :
    2 ≤ ([10, 11] : List ℚ).length ∧
    (pushIndexPrice [10, 11] 15 = (false, [10, 11]) ↔
      |(15:ℚ) - (([10, 11] : List ℚ).take 2).sum / 2| >
        default_tolerance * ((([10, 11] : List ℚ).take 2).sum / 2)) := by
  exact ⟨by norm_num, (publish_validation.1 [10, 11] 15 (by norm_num)).1⟩

/-- C7: the provider classifier is total — every id is assigned either
the first hyperscaler (in alias-table order) one of whose aliases occurs
case-insensitively in the id, or the Neocloud cohort exactly when no
alias matches. -/
theorem classifier_total_first_match :
    (∀ id : String,
        (∃ hs ∈ hyperscaler_aliases, classifyProvider id = .hyperscaler hs.1) ∨
          classifyProvider id = .neocloud) ∧
    (∀ id : String, classifyProvider id = .neocloud ↔
        ∀ hs ∈ hyperscaler_aliases, aliasHit id hs = false) ∧
    (∀ (id : String) (pre post : List (String × List String))
        (hs : String × List String),
        hyperscaler_aliases = pre ++ hs :: post →
        (∀ hs' ∈ pre, aliasHit id hs' = false) →
        aliasHit id hs = true →
        classifyProvider id = .hyperscaler hs.1) := by
  refine ⟨?_, ?_, ?_⟩
  · intro id
    unfold classifyProvider
    cases h : matchHyperscaler id with
    | none => simp
    | some name =>
      left
      obtain ⟨hs, hmem, hf⟩ := List.exists_of_findSome?_eq_some h
      refine ⟨hs, hmem, ?_⟩
      by_cases hb : aliasHit id hs <;> simp [hb] at hf
      simp [hf]
  · intro id
    unfold classifyProvider matchHyperscaler
    cases h : matchInTable hyperscaler_aliases id with
    | none => simpa [h] using (matchInTable_eq_none_iff hyperscaler_aliases id).mp h
    | some name =>
      simp only [h]
      constructor
      · intro hc; cases hc
      · intro hall
        rw [(matchInTable_eq_none_iff hyperscaler_aliases id).mpr hall] at h
        cases h
  · intro id pre post hs htable hpre hhit
    unfold classifyProvider matchHyperscaler
    rw [htable, matchInTable_first pre post hs id hpre hhit]

/-- C7 (witness): the classifier applied to a provider id matching the
alias "amazon" and to one matching no alias. -/
theorem classifier_total_first_match_witness :
    aliasHit "Amazon EC2 (P5en)" ("AWS", ["aws", "amazon"]) = true ∧
    classifyProvider "Amazon EC2 (P5en)" = .hyperscaler "AWS" ∧
    classifyProvider "Lambda Labs" = .neocloud := by
  refine ⟨by decide, ?_, ?_⟩
  · exact classifier_total_first_match.2.2 "Amazon EC2 (P5en)" []
      [("Azure", ["azure", "microsoft"]),
       ("Google Cloud", ["google", "gcp", "google_cloud", "google cloud"]),
       ("Oracle", ["oracle", "oci"]),
       ("CoreWeave", ["coreweave", "core_weave", "core weave"])]
      ("AWS", ["aws", "amazon"]) rfl (by simp) (by decide)
  · exact (classifier_total_first_match.2.1 "Lambda Labs").mpr (by decide)

/-- C8: the strategy loop stops at the first strategy whose result
validates: with strategies `[A, B, C]` where `A` yields no validated
candidate and `B` yields validated `X`, the result is exactly `X` and
only two strategies are invoked — `C` is never run and never merged. -/
theorem pipeline_short_circuit (validate : List (String × ℚ) → Bool)
    (A : MethodOutcome) (X : List (String × ℚ)) (C : MethodOutcome)
    (hA : methodSucceeds validate A = false)
    (hX : methodSucceeds validate (.ok X) = true) :
    runMethods validate [A, .ok X, C] = (some X, 2) := by
  simp [runMethods, hA, hX]

/-- C8 (witness): the short-circuit at a concrete failing strategy,
a concrete validated AWS result, and a concrete third strategy. -/
theorem pipeline_short_circuit_witness :
    methodSucceeds aws_validate_prices .err = false ∧
    methodSucceeds aws_validate_prices (.ok [("P5en.48xlarge (US East)", 5)]) = true ∧
    runMethods aws_validate_prices
        [.err, .ok [("P5en.48xlarge (US East)", 5)], .ok [("other", 9)]] =
      (some [("P5en.48xlarge (US East)", 5)], 2) := by
  have hErrName : variantHasError "P5en.48xlarge (US East)" = false := by decide
  have h1 : methodSucceeds aws_validate_prices .err = false := rfl
  have h2 : methodSucceeds aws_validate_prices
      (.ok [("P5en.48xlarge (US East)", 5)]) = true := by
    simp only [methodSucceeds, aws_validate_prices, List.any_cons, List.any_nil,
      List.isEmpty_cons, hErrName]
    norm_num [awsPlausible]
  exact ⟨h1, h2, pipeline_short_circuit aws_validate_prices .err _ _ h1 h2⟩

lemma get_eur_to_usd_rate_none (sources : List (Option ℚ))
    (h : ∀ o ∈ sources, o = none) : (get_eur_to_usd_rate sources).1 = none := by
  induction sources with
  | nil => rfl
  | cons o rest ih =>
    have ho : o = none := h o (List.mem_cons_self o rest)
    subst ho
    simp [get_eur_to_usd_rate, ih fun o hm => h o (List.mem_cons_of_mem _ hm)]

/-- C9: the exchange-rate lookup returns the first source with a usable
`rates.USD` value, consulting exactly the sources before it and that one;
if every source fails, the AIME scraper produces no price at all; when a
rate is obtained, each validated EUR price is multiplied by it. -/
theorem exchange_rate_first_usable :
    (∀ (pre : List (Option ℚ)) (r : ℚ) (post : List (Option ℚ)),
        (∀ o ∈ pre, o = none) →
        get_eur_to_usd_rate (pre ++ some r :: post) = (some r, pre.length + 1)) ∧
    (∀ sources : List (Option ℚ), (∀ o ∈ sources, o = none) →
        ∀ methods, aime_get_h200_prices sources methods = []) ∧
    (∀ (sources : List (Option ℚ)) (methods : List MethodOutcome) (r : ℚ)
        (ps : List (String × ℚ)),
        (get_eur_to_usd_rate sources).1 = some r →
        (runMethods aime_validate_prices methods).1 = some ps →
        aime_get_h200_prices sources methods = aime_convert r ps) := by
  refine ⟨?_, ?_, ?_⟩
  · intro pre r post h
    induction pre with
    | nil => simp [get_eur_to_usd_rate]
    | cons o rest ih =>
      have ho : o = none := h o (List.mem_cons_self o rest)
      subst ho
      rw [List.cons_append]
      simp [get_eur_to_usd_rate,
        ih fun o hm => h o (List.mem_cons_of_mem _ hm)]
  · intro sources h methods
    simp [aime_get_h200_prices, get_eur_to_usd_rate_none sources h]
  · intro sources methods r ps h1 h2
    simp [aime_get_h200_prices, h1, h2]

/-- C9 (witness): the second source is the first usable one; with two
dead sources no price is produced even when extraction succeeds. -/
theorem exchange_rate_first_usable_witness :
    get_eur_to_usd_rate [none, some 1.08, some 2] = (some 1.08, 2) ∧
    aime_get_h200_prices [none, none]
      [.ok [("H200 NVL 141GB (AIME)", 5)]] = [] := by
  constructor
  · exact exchange_rate_first_usable.1 [none] 1.08 [some 2] (by simp)
  · exact exchange_rate_first_usable.2.1 [none, none] (by simp) _

/-- C2 (counterexample): the AIME collector, with a live exchange rate
but every extraction strategy failing, returns the empty map — not a
static last-known price table — refuting the claim that every provider
collector falls back to static pricing. -/
theorem aime_no_static_fallback_cex :
    aime_get_h200_prices [some 1.08] [.err, .err] = [] := by
  simp [aime_get_h200_prices, get_eur_to_usd_rate, runMethods, methodSucceeds]

/-- C2 (amended): when every strategy fails to validate, the AWS
collector (like the other hyperscaler collectors) returns its static
known-pricing table, normalized to the averaged per-GPU entry $7.91;
the AIME collector (like the other neocloud collectors) instead returns
the empty map. -/
theorem scraper_fallback_split :
    (∀ methods : List MethodOutcome,
        (runMethods aws_validate_prices methods).1 = none →
        aws_get_h200_prices methods = [("P5en.48xlarge (AWS)", 7.91)]) ∧
    (∀ (rateSources : List (Option ℚ)) (methods : List MethodOutcome),
        (runMethods aime_validate_prices methods).1 = none →
        aime_get_h200_prices rateSources methods = []) := by
  constructor
  · intro methods h
    have e1 : variantHasError "P5en.48xlarge (US East N. Virginia)" = false := by decide
    have e2 : variantHasError "P5en.48xlarge (US East Ohio)" = false := by decide
    have e3 : variantHasError "P5en.48xlarge (US West Oregon)" = false := by decide
    simp only [aws_get_h200_prices, h, aws_normalize_prices, aws_known_pricing,
      List.filter, e1, e2, e3]
    norm_num
  · intro rateSources methods h
    cases hr : (get_eur_to_usd_rate rateSources).1 <;>
      simp [aime_get_h200_prices, hr, h]

/-- C2 (witness): the split applied with every strategy erroring. -/
theorem scraper_fallback_split_witness :
    (runMethods aws_validate_prices [.err]).1 = none ∧
    aws_get_h200_prices [.err] = [("P5en.48xlarge (AWS)", 7.91)] ∧
    aime_get_h200_prices [some 2] [.err] = [] := by
  have h : (runMethods aws_validate_prices [.err]).1 = none := by
    simp [runMethods, methodSucceeds]
  have h2 : (runMethods aime_validate_prices [.err]).1 = none := by
    simp [runMethods, methodSucceeds]
  exact ⟨h, scraper_fallback_split.1 [.err] h,
    scraper_fallback_split.2 [some 2] [.err] h2⟩

end H200
